import Mathlib

/-!
Verification of the Cypher IR lowering passes of the graphql-compiler
repository (`graphql_compiler/compiler/ir_lowering_cypher/ir_lowering.py`),
against its natural-language specification.

The IR block and expression model is a shallow embedding of the classes in
`compiler/blocks.py` and `compiler/expressions.py`, restricted to the
variants that the four lowering passes inspect.  Machinery the passes only
pass through (edge directions, type names, field types) is carried as plain
data so the embedded functions mirror the source line by line.
-/

namespace GraphQLCompiler

/-- A query location (`compiler/helpers.py` `Location` / `FoldScopeLocation`).
`isFold` marks the `FoldScopeLocation` subtype; `field` is the optional field
component that `navigate_to_field` fills in. -/
structure Loc where
  locId : Nat
  isFold : Bool
  field : Option String
deriving DecidableEq, Repr

/-- `Location.navigate_to_field`: derive the field-qualified location. -/
def Loc.navigate_to_field (l : Loc) (f : String) : Loc :=
  ⟨l.locId, l.isFold, some f⟩

/-- `Location.at_vertex`: strip the field component. -/
def Loc.atVertex (l : Loc) : Loc :=
  ⟨l.locId, l.isFold, none⟩

/-- IR expressions (`compiler/expressions.py`), restricted to the variants
the lowering passes distinguish, plus `binaryComposition` so that proper
expression trees exist and `literal` / `queryVariable` as opaque leaves. -/
inductive Expression where
  | localField (fieldName : String) (fieldType : Option String)
  | contextField (location : Loc) (fieldType : Option String)
  | foldedContextField (foldScopeLocation : Loc) (fieldType : Option String)
  | literal (value : String)
  | queryVariable (variableName : String) (fieldType : Option String)
  | binaryComposition (operator : String) (left right : Expression)
deriving DecidableEq, Repr

/-- `Expression.visit_and_update`: bottom-up rewrite — children first, then
the visitor is applied to the (rebuilt) node itself. -/
def Expression.visitAndUpdate (f : Expression → Expression) : Expression → Expression
  | .binaryComposition op l r =>
      f (.binaryComposition op (l.visitAndUpdate f) (r.visitAndUpdate f))
  | e => f e

/-- IR blocks (`compiler/blocks.py`), the variants named by the passes. -/
inductive Block where
  | queryRoot (startClass : List String)
  | traverse (direction edgeName : String) (optional : Bool)
  | recurse (direction edgeName : String) (depth : Nat)
  | fold (foldScopeLocation : Loc)
  | backtrack (location : Loc) (optional : Bool)
  | markLocation (location : Loc)
  | coerceType (targetClass : List String)
  | filter (predicate : Expression)
  | globalOperationsStart
deriving DecidableEq, Repr

def Block.isFilter : Block → Bool
  | .filter _ => true
  | _ => false

def Block.isMarkLocation : Block → Bool
  | .markLocation _ => true
  | _ => false

def Block.isCoerceTypeB : Block → Bool
  | .coerceType _ => true
  | _ => false

def Block.isTraverseB : Block → Bool
  | .traverse _ _ _ => true
  | _ => false

def Block.isBacktrackB : Block → Bool
  | .backtrack _ _ => true
  | _ => false

def Block.isGlobalOperationsStart : Block → Bool
  | .globalOperationsStart => true
  | _ => false

/-- `isinstance(block, (Traverse, Fold, Recurse))`. -/
def Block.isTraverseFoldRecurse : Block → Bool
  | .traverse _ _ _ => true
  | .fold _ => true
  | .recurse _ _ _ => true
  | _ => false

/-- `Block.visit_and_update_expressions`: of the modelled variants only
`Filter` carries expressions; all other blocks are returned unchanged. -/
def Block.visitAndUpdateExpressions (f : Expression → Expression) : Block → Block
  | .filter p => .filter (p.visitAndUpdate f)
  | b => b

def Expression.hasLocalField : Expression → Bool
  | .localField _ _ => true
  | .binaryComposition _ l r => l.hasLocalField || r.hasLocalField
  | _ => false

def Block.hasLocalField : Block → Bool
  | .filter p => p.hasLocalField
  | _ => false

/-- All locations referenced by (reachable from) an expression. -/
def Expression.locs : Expression → List Loc
  | .contextField l _ => [l]
  | .foldedContextField l _ => [l]
  | .binaryComposition _ a b => a.locs ++ b.locs
  | _ => []

/-- All locations referenced from expressions inside a block. -/
def Block.exprLocs : Block → List Loc
  | .filter p => p.locs
  | _ => []

/-- Per-location facts from the query metadata table
(`location_info.type.name` and `location_info.optional_scopes_depth`). -/
structure LocationInfo where
  typeName : String
  optionalScopesDepth : Nat

/-- The `QueryMetadataTable`, consumed read-only by the passes. -/
structure QueryMetadataTable where
  getLocationInfo : Loc → LocationInfo

/-! ## Pass 4.2: `insert_explicit_type_bounds` -/

/-- Result of the look-ahead loop inside `insert_explicit_type_bounds`. -/
inductive BoundLookup where
  | foundCoerce
  | foundMark (loc : Loc)
deriving DecidableEq, Repr

/-- The `while lookup_index < len(ir_blocks)` look-ahead: scan forward,
stepping over `Filter` blocks, until a `CoerceType` or `MarkLocation` is
found; any other block kind (or running out of blocks) is an
internal-consistency fault. -/
def findNextBound : List Block → Except String BoundLookup
  | [] => .error "Illegal IR blocks found: no MarkLocation or CoerceType block after trigger"
  | b :: rest =>
    match b with
    | .coerceType _ => .ok .foundCoerce
    | .markLocation loc => .ok (.foundMark loc)
    | .filter _ => findNextBound rest
    | _ => .error "Expected only CoerceType and Filter blocks before the corresponding MarkLocation"

/-- `insert_explicit_type_bounds`: add a `CoerceType` block after every
`Traverse`/`Fold`/`Recurse`, if one is not already present.  The inserted
block carries the singleton type-name set of the upcoming `MarkLocation`'s
location, and is placed immediately after the triggering block. -/
def insert_explicit_type_bounds (qmt : QueryMetadataTable) :
    List Block → Except String (List Block)
  | [] => .ok []
  | b :: rest =>
    if b.isTraverseFoldRecurse then
      match findNextBound rest with
      | .ok .foundCoerce =>
          (insert_explicit_type_bounds qmt rest).map (fun t => b :: t)
      | .ok (.foundMark loc) =>
          (insert_explicit_type_bounds qmt rest).map
            (fun t => b :: Block.coerceType [(qmt.getLocationInfo loc).typeName] :: t)
      | .error msg => .error msg
    else
      (insert_explicit_type_bounds qmt rest).map (fun t => b :: t)

/-! ## Pass 4.3: `remove_mark_location_after_optional_backtrack` -/

/-- Modelled from the spec: the revisit-location → origin-location
translation map (`make_revisit_location_translations`, in
`ir_lowering_common/location_renaming.py`, outside the provided sources) is
"supplied by the metadata table"; here it is taken as an explicit map.
Translating a (possibly field-qualified) location substitutes a reference
to a revisit location with its origin, preserving the field component. -/
def translateLoc (tr : Loc → Option Loc) (l : Loc) : Loc :=
  match tr l.atVertex with
  | some origin =>
      match l.field with
      | some f => origin.navigate_to_field f
      | none => origin
  | none => l

/-- Modelled from the spec: `make_location_rewriter_visitor_fn` (in
`ir_lowering_common/location_renaming.py`, outside the provided sources)
rewrites every location-bearing expression, "substituting any reference to
a revisit location with its origin"; other expressions are unchanged. -/
def make_location_rewriter_visitor_fn (tr : Loc → Option Loc) (e : Expression) : Expression :=
  match e with
  | .contextField l ty => .contextField (translateLoc tr l) ty
  | .foldedContextField l ty => .foldedContextField (translateLoc tr l) ty
  | e => e

/-- `remove_mark_location_after_optional_backtrack`: drop every
`MarkLocation` whose location is a key of the translation map; rewrite the
locations inside every other block's expressions via the visitor. -/
def remove_mark_location_after_optional_backtrack (tr : Loc → Option Loc)
    (irBlocks : List Block) : List Block :=
  match irBlocks with
  | [] => []
  | b :: rest =>
    match b with
    | .markLocation loc =>
        if (tr loc).isSome then
          remove_mark_location_after_optional_backtrack tr rest
        else
          (Block.markLocation loc).visitAndUpdateExpressions
              (make_location_rewriter_visitor_fn tr)
            :: remove_mark_location_after_optional_backtrack tr rest
    | _ =>
        b.visitAndUpdateExpressions (make_location_rewriter_visitor_fn tr)
          :: remove_mark_location_after_optional_backtrack tr rest

/-! ## Pass 4.4: `replace_local_fields_with_context_fields` -/

/-- `visitor_func_base`: convert a `LocalField` into a `ContextField` (or
`FoldedContextField` if the location is a fold-scope location) at the given
location; all other expressions are returned unchanged. -/
def visitor_func_base (location : Loc) (expression : Expression) : Expression :=
  match expression with
  | .localField fieldName fieldType =>
      let location_at_field := location.navigate_to_field fieldName
      if location.isFold then
        .foldedContextField location_at_field fieldType
      else
        .contextField location_at_field fieldType
  | e => e

/-- The scan loop of `replace_local_fields_with_context_fields`: buffer
blocks until a `MarkLocation`, then rewrite and flush the buffer, emit the
`MarkLocation`, and continue; leftover buffered blocks are appended
unrewritten at the end. -/
def replaceLocalFieldsGo : List Block → List Block → List Block
  | buffer, [] => buffer
  | buffer, b :: rest =>
    match b with
    | .markLocation loc =>
        buffer.map (fun blk => blk.visitAndUpdateExpressions (visitor_func_base loc))
          ++ Block.markLocation loc :: replaceLocalFieldsGo [] rest
    | _ => replaceLocalFieldsGo (buffer ++ [b]) rest

/-- `replace_local_fields_with_context_fields`, including the final
block-count assertion (`AssertionError` when the count changed). -/
def replace_local_fields_with_context_fields (irBlocks : List Block) :
    Except String (List Block) :=
  let newIrBlocks := replaceLocalFieldsGo [] irBlocks
  if irBlocks.length = newIrBlocks.length then
    .ok newIrBlocks
  else
    .error "The number of IR blocks unexpectedly changed"

/-! ## Pass 4.5: `move_filters_in_optional_locations_to_global_operations` -/

/-- The `within_optional_scope` flag update performed by the scan's
`elif` chain: an optional `Traverse` sets it; a `Backtrack` recomputes it
from the destination's `optional_scopes_depth`; all other blocks leave it
unchanged. -/
def stepFlag (qmt : QueryMetadataTable) (flag : Bool) : Block → Bool
  | .traverse _ _ opt => if opt then true else flag
  | .backtrack loc _ => decide (0 < (qmt.getLocationInfo loc).optionalScopesDepth)
  | _ => flag

/-- The scan loop of `move_filters_in_optional_locations_to_global_operations`:
a `Filter` seen while the flag is set is moved to the pending
`global_filters` list instead of being emitted; after emitting a
`GlobalOperationsStart` the pending list is flushed right after it. -/
def moveFiltersAux (qmt : QueryMetadataTable) :
    Bool → List Block → List Block → List Block
  | _, _, [] => []
  | flag, pending, b :: rest =>
    if flag && b.isFilter then
      moveFiltersAux qmt flag (pending ++ [b]) rest
    else
      if b.isGlobalOperationsStart then
        b :: pending ++ moveFiltersAux qmt (stepFlag qmt flag b) [] rest
      else
        b :: moveFiltersAux qmt (stepFlag qmt flag b) pending rest

/-- `move_filters_in_optional_locations_to_global_operations`. -/
def move_filters_in_optional_locations_to_global_operations
    (qmt : QueryMetadataTable) (irBlocks : List Block) : List Block :=
  moveFiltersAux qmt false [] irBlocks

/-! ## Specification-side helper definitions -/

/-- Number of `Traverse`/`Fold`/`Recurse` blocks lacking a pre-existing
`CoerceType` (their forward scan, skipping `Filter`s, finds a
`MarkLocation` first). -/
def countMissingCoerce : List Block → Nat
  | [] => 0
  | b :: rest =>
      (if b.isTraverseFoldRecurse then
        match findNextBound rest with
        | .ok (.foundMark _) => 1
        | _ => 0
      else 0) + countMissingCoerce rest

/-- Number of `MarkLocation` blocks whose location is a key of the revisit
translation map (the blocks pass 4.3 drops). -/
def countDroppedMarks (tr : Loc → Option Loc) : List Block → Nat
  | [] => 0
  | b :: rest =>
      (match b with
      | .markLocation loc => if (tr loc).isSome then 1 else 0
      | _ => 0) + countDroppedMarks tr rest

/-- The location of the first `MarkLocation` reached scanning forward and
skipping only `Filter` blocks, if any. -/
def nextMarkSkipFilters : List Block → Option Loc
  | [] => none
  | b :: rest =>
    match b with
    | .markLocation loc => some loc
    | .filter _ => nextMarkSkipFilters rest
    | _ => none

/-- Claim-side description of pass 4.2's output: the output is the input
with some blocks inserted, where each inserted block follows a
`Traverse`/`Fold`/`Recurse` block and is a `CoerceType` carrying the
singleton type-name set of the location of the following `MarkLocation`
(found by skipping only `Filter` blocks); pre-existing blocks are kept
unmodified in their original relative order. -/
inductive InsertDescribes (qmt : QueryMetadataTable) : List Block → List Block → Prop where
  | nil : InsertDescribes qmt [] []
  | keep (b : Block) {rest out : List Block} :
      InsertDescribes qmt rest out → InsertDescribes qmt (b :: rest) (b :: out)
  | insertAfter (b : Block) (loc : Loc) {rest out : List Block} :
      b.isTraverseFoldRecurse = true →
      nextMarkSkipFilters rest = some loc →
      InsertDescribes qmt rest out →
      InsertDescribes qmt (b :: rest)
        (b :: Block.coerceType [(qmt.getLocationInfo loc).typeName] :: out)

/-- `true` when no block containing a `LocalField` expression occurs after
the last `MarkLocation` block (every `LocalField`-bearing block is followed
by some later `MarkLocation`). -/
def noLocalFieldDangling : List Block → Bool
  | [] => true
  | b :: rest =>
      (!b.hasLocalField || rest.any Block.isMarkLocation) && noLocalFieldDangling rest

/-- The blocks pass 4.5's scan keeps in place: the input minus the
`Filter` blocks encountered while the `within_optional_scope` flag is set,
with the same flag dynamics as the pass. -/
def scanKeep (qmt : QueryMetadataTable) : Bool → List Block → List Block
  | _, [] => []
  | flag, b :: rest =>
    if flag && b.isFilter then scanKeep qmt flag rest
    else b :: scanKeep qmt (stepFlag qmt flag b) rest

/-- The `Filter` blocks pass 4.5's scan removes from their positions
(those encountered while the `within_optional_scope` flag is set), in their
original relative order. -/
def scanHoist (qmt : QueryMetadataTable) : Bool → List Block → List Block
  | _, [] => []
  | flag, b :: rest =>
    if flag && b.isFilter then b :: scanHoist qmt flag rest
    else scanHoist qmt (stepFlag qmt flag b) rest

/-- Blocks legal inside the per-path traversal section other than scope
delimiters: anything except `Traverse`, `Backtrack`, `GlobalOperationsStart`. -/
def Block.isPlainStepBlock : Block → Bool
  | .traverse _ _ _ => false
  | .backtrack _ _ => false
  | .globalOperationsStart => false
  | _ => true

/-- The bracket structure of the per-path traversal section preceding
`GlobalOperationsStart`: plain blocks, and properly nested
`Traverse` ... `Backtrack` scopes. -/
inductive TravTree where
  | nil
  | plainStep (b : Block) (rest : TravTree)
  | scope (direction edgeName : String) (opt : Bool) (body : TravTree)
      (loc : Loc) (bopt : Bool) (rest : TravTree)

/-- The block sequence a `TravTree` stands for. -/
def TravTree.flatten : TravTree → List Block
  | .nil => []
  | .plainStep b rest => b :: rest.flatten
  | .scope dir e opt body loc bopt rest =>
      Block.traverse dir e opt :: body.flatten
        ++ Block.backtrack loc bopt :: rest.flatten

/-- Structural invariants of spec section 3, relative to the number `d` of
enclosing optional scopes: only plain blocks outside scope delimiters, and
every `Backtrack` destination's recorded `optional_scopes_depth` equals the
optional nesting depth at the point the scope was opened. -/
def TravTree.wfB (qmt : QueryMetadataTable) : TravTree → Nat → Bool
  | .nil, _ => true
  | .plainStep b rest, d => b.isPlainStepBlock && rest.wfB qmt d
  | .scope _ _ opt body loc _ rest, d =>
      body.wfB qmt (if opt then d + 1 else d)
        && ((qmt.getLocationInfo loc).optionalScopesDepth == d)
        && rest.wfB qmt d

/-- The traversal-section blocks with every `Filter` at optional nesting
depth at least one removed: the blocks that must stay in their original
positions. -/
def TravTree.kept : TravTree → Nat → List Block
  | .nil, _ => []
  | .plainStep b rest, d =>
      (if decide (0 < d) && b.isFilter then [] else [b]) ++ rest.kept d
  | .scope dir e opt body loc bopt rest, d =>
      Block.traverse dir e opt :: body.kept (if opt then d + 1 else d)
        ++ Block.backtrack loc bopt :: rest.kept d

/-- The `Filter` blocks at optional nesting depth at least one (those lying
between an optional-entering `Traverse` and its matching `Backtrack`), in
their original relative order: the blocks that must be hoisted. -/
def TravTree.hoisted : TravTree → Nat → List Block
  | .nil, _ => []
  | .plainStep b rest, d =>
      (if decide (0 < d) && b.isFilter then [b] else []) ++ rest.hoisted d
  | .scope _ _ opt body _ _ rest, d =>
      body.hoisted (if opt then d + 1 else d) ++ rest.hoisted d

/-! ## Concrete fixtures used by witnesses -/

def locA : Loc := ⟨0, false, none⟩
def locB : Loc := ⟨1, false, none⟩
def locC : Loc := ⟨2, false, none⟩
def locF : Loc := ⟨3, true, none⟩
def lfX : Expression := .localField "x" none

/-- A metadata table: location 1 has optional nesting depth 1, location 2
has depth 2, all other locations depth 0; every location's type is `"T"`. -/
def qmtT : QueryMetadataTable :=
  ⟨fun l => ⟨"T", if l.locId = 2 then 2 else if l.locId = 1 then 1 else 0⟩⟩

/-! ## Lemmas on pass 4.2 -/

lemma filter_isFilter_elim {x : Block} (hx : x.isFilter = true) :
    ∃ p, x = Block.filter p := by
  cases x <;> simp [Block.isFilter] at hx
  exact ⟨_, rfl⟩

lemma insert_cons_of_not_trigger (qmt : QueryMetadataTable) {b : Block}
    (hb : b.isTraverseFoldRecurse = false) (rest : List Block) :
    insert_explicit_type_bounds qmt (b :: rest)
      = (insert_explicit_type_bounds qmt rest).map (fun t => b :: t) := by
  simp [insert_explicit_type_bounds, hb]

lemma insert_cons_trigger_coerce (qmt : QueryMetadataTable) {b : Block}
    (hb : b.isTraverseFoldRecurse = true) {rest : List Block}
    (h : findNextBound rest = .ok .foundCoerce) :
    insert_explicit_type_bounds qmt (b :: rest)
      = (insert_explicit_type_bounds qmt rest).map (fun t => b :: t) := by
  simp [insert_explicit_type_bounds, hb, h]

lemma insert_cons_trigger_mark (qmt : QueryMetadataTable) {b : Block}
    (hb : b.isTraverseFoldRecurse = true) {rest : List Block} {loc : Loc}
    (h : findNextBound rest = .ok (.foundMark loc)) :
    insert_explicit_type_bounds qmt (b :: rest)
      = (insert_explicit_type_bounds qmt rest).map
          (fun t => b :: Block.coerceType [(qmt.getLocationInfo loc).typeName] :: t) := by
  simp [insert_explicit_type_bounds, hb, h]

lemma insert_cons_trigger_error (qmt : QueryMetadataTable) {b : Block}
    (hb : b.isTraverseFoldRecurse = true) {rest : List Block} {msg : String}
    (h : findNextBound rest = .error msg) :
    insert_explicit_type_bounds qmt (b :: rest) = .error msg := by
  simp [insert_explicit_type_bounds, hb, h]

lemma findNextBound_append_filters {mid : List Block}
    (hmid : ∀ x ∈ mid, x.isFilter = true) (xs : List Block) :
    findNextBound (mid ++ xs) = findNextBound xs := by
  induction mid with
  | nil => rfl
  | cons x mid ih =>
      obtain ⟨p, rfl⟩ := filter_isFilter_elim (hmid x (by simp))
      exact ih (fun y hy => hmid y (by simp [hy]))

lemma insert_append_filters (qmt : QueryMetadataTable) {mid : List Block}
    (hmid : ∀ x ∈ mid, x.isFilter = true) (xs : List Block) :
    insert_explicit_type_bounds qmt (mid ++ xs)
      = (insert_explicit_type_bounds qmt xs).map (fun t => mid ++ t) := by
  induction mid with
  | nil =>
      simp only [List.nil_append]
      cases insert_explicit_type_bounds qmt xs <;> rfl
  | cons x mid ih =>
      obtain ⟨p, rfl⟩ := filter_isFilter_elim (hmid x (by simp))
      rw [List.cons_append,
        insert_cons_of_not_trigger qmt
          (show (Block.filter p).isTraverseFoldRecurse = false from rfl),
        ih (fun y hy => hmid y (by simp [hy]))]
      cases insert_explicit_type_bounds qmt xs <;> rfl

/-- C3: for a `Traverse`/`Fold`/`Recurse` block followed (skipping only
`Filter` blocks) by a `CoerceType`, pass 4.2 inserts nothing; when a
`MarkLocation` is found first, a `CoerceType` naming that location's
declared type is inserted immediately after the triggering block, before
the skipped `Filter` blocks; when the sequence ends or any other block kind
is reached first, the pass raises a fatal internal-consistency fault. -/
theorem claim_C3_type_bound_lookahead (qmt : QueryMetadataTable) (b : Block)
    (mid rest : List Block) (hb : b.isTraverseFoldRecurse = true)
    (hmid : ∀ x ∈ mid, x.isFilter = true) :
    (∀ ts, insert_explicit_type_bounds qmt (b :: mid ++ Block.coerceType ts :: rest)
        = (insert_explicit_type_bounds qmt rest).map
            (fun t => b :: mid ++ Block.coerceType ts :: t)) ∧
    (∀ loc, insert_explicit_type_bounds qmt (b :: mid ++ Block.markLocation loc :: rest)
        = (insert_explicit_type_bounds qmt rest).map
            (fun t => b :: Block.coerceType [(qmt.getLocationInfo loc).typeName]
              :: (mid ++ Block.markLocation loc :: t))) ∧
    (∃ msg, insert_explicit_type_bounds qmt (b :: mid) = Except.error msg) ∧
    (∀ bad rest2, bad.isFilter = false → bad.isCoerceTypeB = false →
      bad.isMarkLocation = false →
      ∃ msg, insert_explicit_type_bounds qmt (b :: mid ++ bad :: rest2)
        = Except.error msg) := by
  refine ⟨?_, ?_, ?_, ?_⟩
  · intro ts
    have h1 : findNextBound (mid ++ Block.coerceType ts :: rest) = .ok .foundCoerce := by
      rw [findNextBound_append_filters hmid]; rfl
    rw [List.cons_append, insert_cons_trigger_coerce qmt hb h1,
      insert_append_filters qmt hmid,
      insert_cons_of_not_trigger qmt
        (show (Block.coerceType ts).isTraverseFoldRecurse = false from rfl)]
    cases insert_explicit_type_bounds qmt rest <;> rfl
  · intro loc
    have h1 : findNextBound (mid ++ Block.markLocation loc :: rest)
        = .ok (.foundMark loc) := by
      rw [findNextBound_append_filters hmid]; rfl
    rw [List.cons_append, insert_cons_trigger_mark qmt hb h1,
      insert_append_filters qmt hmid,
      insert_cons_of_not_trigger qmt
        (show (Block.markLocation loc).isTraverseFoldRecurse = false from rfl)]
    cases insert_explicit_type_bounds qmt rest <;> rfl
  · have h1 : findNextBound mid = findNextBound [] := by
      have h := findNextBound_append_filters hmid []
      rwa [List.append_nil] at h
    exact ⟨_, insert_cons_trigger_error qmt hb h1⟩
  · intro bad rest2 h1 h2 h3
    have h4 : ∃ m, findNextBound (bad :: rest2) = Except.error m := by
      cases bad
      case filter p => simp [Block.isFilter] at h1
      case coerceType ts => simp [Block.isCoerceTypeB] at h2
      case markLocation l => simp [Block.isMarkLocation] at h3
      all_goals exact ⟨_, rfl⟩
    obtain ⟨m, hm⟩ := h4
    have h5 : findNextBound (mid ++ bad :: rest2) = Except.error m := by
      rw [findNextBound_append_filters hmid]; exact hm
    rw [List.cons_append]
    exact ⟨m, insert_cons_trigger_error qmt hb h5⟩

/-- Witness for C3 at a concrete trigger, skipped filter and MarkLocation. -/
theorem claim_C3_witness :
    insert_explicit_type_bounds qmtT
        (Block.traverse "out" "e" false :: [Block.filter lfX]
          ++ Block.markLocation locB :: [])
      = Except.ok [Block.traverse "out" "e" false, Block.coerceType ["T"],
          Block.filter lfX, Block.markLocation locB] := by
  rw [(claim_C3_type_bound_lookahead qmtT (Block.traverse "out" "e" false)
    [Block.filter lfX] [] rfl (by decide)).2.1 locB]
  rfl

lemma nextMark_of_findNextBound : ∀ {rest : List Block} {loc : Loc},
    findNextBound rest = Except.ok (BoundLookup.foundMark loc) →
    nextMarkSkipFilters rest = some loc := by
  intro rest
  induction rest with
  | nil => intro loc h; simp [findNextBound] at h
  | cons b rest ih =>
      intro loc h
      cases b
      case coerceType ts => simp [findNextBound] at h
      case markLocation l =>
          simp [findNextBound] at h
          simp [nextMarkSkipFilters, h]
      case filter p => exact ih h
      all_goals simp [findNextBound] at h

lemma findNextBound_insert_coerce (qmt : QueryMetadataTable) :
    ∀ {rest out : List Block},
    findNextBound rest = Except.ok BoundLookup.foundCoerce →
    insert_explicit_type_bounds qmt rest = Except.ok out →
    findNextBound out = Except.ok BoundLookup.foundCoerce := by
  intro rest
  induction rest with
  | nil => intro out h _; simp [findNextBound] at h
  | cons b rest ih =>
      intro out h hins
      cases b
      case coerceType ts =>
          rw [insert_cons_of_not_trigger qmt
            (show (Block.coerceType ts).isTraverseFoldRecurse = false from rfl)] at hins
          cases h' : insert_explicit_type_bounds qmt rest <;>
            rw [h'] at hins <;> simp [Except.map] at hins
          subst hins
          rfl
      case filter p =>
          rw [insert_cons_of_not_trigger qmt
            (show (Block.filter p).isTraverseFoldRecurse = false from rfl)] at hins
          cases h' : insert_explicit_type_bounds qmt rest <;>
            rw [h'] at hins <;> simp [Except.map] at hins
          subst hins
          simpa [findNextBound] using ih h h'
      case markLocation l => simp [findNextBound] at h
      all_goals simp [findNextBound] at h

/-- C4: pass 4.2 is idempotent — on any input where it succeeds, running it
on its own output returns that output unchanged. -/
theorem claim_C4_type_bound_insertion_idempotent (qmt : QueryMetadataTable) :
    ∀ (blocks out : List Block),
    insert_explicit_type_bounds qmt blocks = Except.ok out →
    insert_explicit_type_bounds qmt out = Except.ok out := by
  intro blocks
  induction blocks with
  | nil =>
      intro out h
      simp [insert_explicit_type_bounds] at h
      subst h
      rfl
  | cons b rest ih =>
      intro out h
      by_cases hb : b.isTraverseFoldRecurse = true
      · cases hfind : findNextBound rest with
        | error msg =>
            rw [insert_cons_trigger_error qmt hb hfind] at h
            exact absurd h (by simp)
        | ok r =>
            cases r with
            | foundCoerce =>
                rw [insert_cons_trigger_coerce qmt hb hfind] at h
                cases h' : insert_explicit_type_bounds qmt rest <;>
                  rw [h'] at h <;> simp [Except.map] at h
                subst h
                rw [insert_cons_trigger_coerce qmt hb
                  (findNextBound_insert_coerce qmt hfind h'), ih _ h']
                rfl
            | foundMark loc =>
                rw [insert_cons_trigger_mark qmt hb hfind] at h
                cases h' : insert_explicit_type_bounds qmt rest <;>
                  rw [h'] at h <;> simp [Except.map] at h
                subst h
                rw [insert_cons_trigger_coerce qmt hb
                  (show findNextBound (Block.coerceType
                      [(qmt.getLocationInfo loc).typeName] :: _) =
                    Except.ok BoundLookup.foundCoerce from rfl)]
                rw [insert_cons_of_not_trigger qmt
                  (show (Block.coerceType
                      [(qmt.getLocationInfo loc).typeName]).isTraverseFoldRecurse
                    = false from rfl), ih _ h']
                rfl
      · rw [Bool.not_eq_true] at hb
        rw [insert_cons_of_not_trigger qmt hb] at h
        cases h' : insert_explicit_type_bounds qmt rest <;>
          rw [h'] at h <;> simp [Except.map] at h
        subst h
        rw [insert_cons_of_not_trigger qmt hb, ih _ h']
        rfl

/-- Witness for C4 on a concrete succeeding input. -/
theorem claim_C4_witness :
    insert_explicit_type_bounds qmtT
        [Block.traverse "out" "e" false, Block.coerceType ["T"],
          Block.filter lfX, Block.markLocation locB]
      = Except.ok [Block.traverse "out" "e" false, Block.coerceType ["T"],
          Block.filter lfX, Block.markLocation locB] :=
  claim_C4_type_bound_insertion_idempotent qmtT
    [Block.traverse "out" "e" false, Block.filter lfX, Block.markLocation locB]
    _ (by rfl)

/-- C10: the output of pass 4.2 keeps every pre-existing block unmodified
in its original relative order (the input is a sublist of the output), and
is described by `InsertDescribes`: each inserted block follows a
`Traverse`/`Fold`/`Recurse` block and is a `CoerceType` carrying the
singleton set of the declared type name recorded for the location of the
following `MarkLocation` (found skipping only `Filter` blocks). -/
theorem claim_C10_inserted_coercions_are_singletons (qmt : QueryMetadataTable) :
    ∀ (blocks out : List Block),
    insert_explicit_type_bounds qmt blocks = Except.ok out →
    InsertDescribes qmt blocks out ∧ List.Sublist blocks out := by
  intro blocks
  induction blocks with
  | nil =>
      intro out h
      simp [insert_explicit_type_bounds] at h
      subst h
      exact ⟨InsertDescribes.nil, List.Sublist.refl []⟩
  | cons b rest ih =>
      intro out h
      by_cases hb : b.isTraverseFoldRecurse = true
      · cases hfind : findNextBound rest with
        | error msg =>
            rw [insert_cons_trigger_error qmt hb hfind] at h
            exact absurd h (by simp)
        | ok r =>
            cases r with
            | foundCoerce =>
                rw [insert_cons_trigger_coerce qmt hb hfind] at h
                cases h' : insert_explicit_type_bounds qmt rest <;>
                  rw [h'] at h <;> simp [Except.map] at h
                subst h
                obtain ⟨hd, hs⟩ := ih _ h'
                exact ⟨InsertDescribes.keep b hd, List.Sublist.cons₂ b hs⟩
            | foundMark loc =>
                rw [insert_cons_trigger_mark qmt hb hfind] at h
                cases h' : insert_explicit_type_bounds qmt rest <;>
                  rw [h'] at h <;> simp [Except.map] at h
                subst h
                obtain ⟨hd, hs⟩ := ih _ h'
                refine ⟨InsertDescribes.insertAfter b loc hb
                  (nextMark_of_findNextBound hfind) hd, ?_⟩
                exact List.Sublist.cons₂ b (List.Sublist.cons _ hs)
      · rw [Bool.not_eq_true] at hb
        rw [insert_cons_of_not_trigger qmt hb] at h
        cases h' : insert_explicit_type_bounds qmt rest <;>
          rw [h'] at h <;> simp [Except.map] at h
        subst h
        obtain ⟨hd, hs⟩ := ih _ h'
        exact ⟨InsertDescribes.keep b hd, List.Sublist.cons₂ b hs⟩

/-- Witness for C10 on a concrete succeeding input. -/
theorem claim_C10_witness :
    InsertDescribes qmtT
        [Block.traverse "out" "e" false, Block.filter lfX, Block.markLocation locB]
        [Block.traverse "out" "e" false, Block.coerceType ["T"],
          Block.filter lfX, Block.markLocation locB]
      ∧ List.Sublist
          [Block.traverse "out" "e" false, Block.filter lfX, Block.markLocation locB]
          [Block.traverse "out" "e" false, Block.coerceType ["T"],
            Block.filter lfX, Block.markLocation locB] :=
  claim_C10_inserted_coercions_are_singletons qmtT
    [Block.traverse "out" "e" false, Block.filter lfX, Block.markLocation locB]
    _ (by rfl)

/-! ## Length laws -/

lemma insert_length (qmt : QueryMetadataTable) :
    ∀ {blocks out : List Block},
    insert_explicit_type_bounds qmt blocks = Except.ok out →
    out.length = blocks.length + countMissingCoerce blocks := by
  intro blocks
  induction blocks with
  | nil =>
      intro out h
      simp [insert_explicit_type_bounds] at h
      subst h
      rfl
  | cons b rest ih =>
      intro out h
      by_cases hb : b.isTraverseFoldRecurse = true
      · cases hfind : findNextBound rest with
        | error msg =>
            rw [insert_cons_trigger_error qmt hb hfind] at h
            exact absurd h (by simp)
        | ok r =>
            cases r with
            | foundCoerce =>
                rw [insert_cons_trigger_coerce qmt hb hfind] at h
                cases h' : insert_explicit_type_bounds qmt rest <;>
                  rw [h'] at h <;> simp [Except.map] at h
                subst h
                simp [countMissingCoerce, hb, hfind, ih h']
                omega
            | foundMark loc =>
                rw [insert_cons_trigger_mark qmt hb hfind] at h
                cases h' : insert_explicit_type_bounds qmt rest <;>
                  rw [h'] at h <;> simp [Except.map] at h
                subst h
                simp [countMissingCoerce, hb, hfind, ih h']
                omega
      · rw [Bool.not_eq_true] at hb
        rw [insert_cons_of_not_trigger qmt hb] at h
        cases h' : insert_explicit_type_bounds qmt rest <;>
          rw [h'] at h <;> simp [Except.map] at h
        subst h
        simp [countMissingCoerce, hb, ih h']
        omega

lemma remove_mark_length (tr : Loc → Option Loc) :
    ∀ (blocks : List Block),
    (remove_mark_location_after_optional_backtrack tr blocks).length
        + countDroppedMarks tr blocks
      = blocks.length := by
  intro blocks
  induction blocks with
  | nil => rfl
  | cons b rest ih =>
      cases b
      case markLocation loc =>
          by_cases hk : (tr loc).isSome = true
          · simp [remove_mark_location_after_optional_backtrack, countDroppedMarks, hk]
            omega
          · rw [Bool.not_eq_true] at hk
            simp [remove_mark_location_after_optional_backtrack, countDroppedMarks, hk]
            omega
      all_goals
        simp [remove_mark_location_after_optional_backtrack, countDroppedMarks]
        omega

lemma replaceLocalFieldsGo_length :
    ∀ (blocks buffer : List Block),
    (replaceLocalFieldsGo buffer blocks).length = buffer.length + blocks.length := by
  intro blocks
  induction blocks with
  | nil => intro buffer; simp [replaceLocalFieldsGo]
  | cons b rest ih =>
      intro buffer
      cases b
      case markLocation loc =>
          simp [replaceLocalFieldsGo, ih]
          try omega
      all_goals
        simp [replaceLocalFieldsGo, ih]
        try omega

/-- C5: block-count laws of the first three passes.  For pass 4.2, the
output length is the input length plus the number of
`Traverse`/`Fold`/`Recurse` blocks lacking a pre-existing `CoerceType`
(hence at least the input length).  For pass 4.3, the output length is the
input length minus the number of `MarkLocation` blocks whose location is a
key of the revisit translation map.  Pass 4.4 always succeeds with an
output of exactly the input length. -/
theorem claim_C5_block_count_laws :
    (∀ (qmt : QueryMetadataTable) (blocks out : List Block),
      insert_explicit_type_bounds qmt blocks = Except.ok out →
      blocks.length ≤ out.length
        ∧ out.length = blocks.length + countMissingCoerce blocks) ∧
    (∀ (tr : Loc → Option Loc) (blocks : List Block),
      (remove_mark_location_after_optional_backtrack tr blocks).length
        = blocks.length - countDroppedMarks tr blocks) ∧
    (∀ blocks : List Block,
      replace_local_fields_with_context_fields blocks
          = Except.ok (replaceLocalFieldsGo [] blocks)
        ∧ (replaceLocalFieldsGo [] blocks).length = blocks.length) := by
  refine ⟨?_, ?_, ?_⟩
  · intro qmt blocks out h
    have h1 := insert_length qmt h
    omega
  · intro tr blocks
    have h1 := remove_mark_length tr blocks
    omega
  · intro blocks
    have h1 := replaceLocalFieldsGo_length blocks []
    constructor
    · simp [replace_local_fields_with_context_fields, h1]
    · simpa using h1

/-- Witness for C5 at concrete inputs for all three passes. -/
theorem claim_C5_witness :
    ((4 : Nat) ≤ 4 ∧ (4 : Nat) = 3 + countMissingCoerce
        [Block.traverse "out" "e" false, Block.filter lfX, Block.markLocation locB]) ∧
    (remove_mark_location_after_optional_backtrack
        (fun l => if l.locId = 1 then some locA else none)
        [Block.markLocation locA, Block.markLocation locB]).length
      = ([Block.markLocation locA, Block.markLocation locB] : List Block).length
          - countDroppedMarks (fun l => if l.locId = 1 then some locA else none)
              [Block.markLocation locA, Block.markLocation locB] ∧
    replace_local_fields_with_context_fields [Block.filter lfX, Block.markLocation locA]
        = Except.ok (replaceLocalFieldsGo [] [Block.filter lfX, Block.markLocation locA])
      ∧ (replaceLocalFieldsGo [] [Block.filter lfX, Block.markLocation locA]).length
          = ([Block.filter lfX, Block.markLocation locA] : List Block).length := by
  refine ⟨?_, ?_, ?_⟩
  · simpa using (claim_C5_block_count_laws.1 qmtT
      [Block.traverse "out" "e" false, Block.filter lfX, Block.markLocation locB]
      [Block.traverse "out" "e" false, Block.coerceType ["T"],
        Block.filter lfX, Block.markLocation locB] (by rfl))
  · exact claim_C5_block_count_laws.2.1
      (fun l => if l.locId = 1 then some locA else none)
      [Block.markLocation locA, Block.markLocation locB]
  · exact claim_C5_block_count_laws.2.2
      [Block.filter lfX, Block.markLocation locA]

/-! ## Pass 4.3: no dangling revisit references -/

lemma translateLoc_not_key {tr : Loc → Option Loc}
    (hch : ∀ v o, tr v = some o → tr o.atVertex = none) (l : Loc) :
    tr (translateLoc tr l).atVertex = none := by
  unfold translateLoc
  cases hv : tr l.atVertex with
  | none => exact hv
  | some origin =>
      cases hf : l.field with
      | none => simpa using hch _ _ hv
      | some f =>
          have h1 : (origin.navigate_to_field f).atVertex = origin.atVertex := rfl
          simpa [h1] using hch _ _ hv

lemma rewritten_expr_locs_not_key {tr : Loc → Option Loc}
    (hch : ∀ v o, tr v = some o → tr o.atVertex = none) :
    ∀ (e : Expression) (l : Loc),
      l ∈ (e.visitAndUpdate (make_location_rewriter_visitor_fn tr)).locs →
      tr l.atVertex = none := by
  intro e
  induction e with
  | binaryComposition op a b iha ihb =>
      intro l hl
      simp only [Expression.visitAndUpdate, make_location_rewriter_visitor_fn,
        Expression.locs, List.mem_append] at hl
      rcases hl with h | h
      · exact iha l h
      · exact ihb l h
  | contextField l0 ty =>
      intro l hl
      simp only [Expression.visitAndUpdate, make_location_rewriter_visitor_fn,
        Expression.locs, List.mem_singleton] at hl
      subst hl
      exact translateLoc_not_key hch l0
  | foldedContextField l0 ty =>
      intro l hl
      simp only [Expression.visitAndUpdate, make_location_rewriter_visitor_fn,
        Expression.locs, List.mem_singleton] at hl
      subst hl
      exact translateLoc_not_key hch l0
  | localField n ty => intro l hl; simp [Expression.visitAndUpdate,
      make_location_rewriter_visitor_fn, Expression.locs] at hl
  | literal v => intro l hl; simp [Expression.visitAndUpdate,
      make_location_rewriter_visitor_fn, Expression.locs] at hl
  | queryVariable n ty => intro l hl; simp [Expression.visitAndUpdate,
      make_location_rewriter_visitor_fn, Expression.locs] at hl

lemma remove_mark_no_revisit_marks (tr : Loc → Option Loc) :
    ∀ (blocks : List Block) (loc : Loc), (tr loc).isSome = true →
    Block.markLocation loc ∉ remove_mark_location_after_optional_backtrack tr blocks := by
  intro blocks
  induction blocks with
  | nil => intro loc _ h; simp [remove_mark_location_after_optional_backtrack] at h
  | cons b rest ih =>
      intro loc hk h
      cases b
      case markLocation l0 =>
          by_cases hk0 : (tr l0).isSome = true
          · rw [show remove_mark_location_after_optional_backtrack tr
                  (Block.markLocation l0 :: rest)
                = remove_mark_location_after_optional_backtrack tr rest from by
                simp [remove_mark_location_after_optional_backtrack, hk0]] at h
            exact ih loc hk h
          · rw [Bool.not_eq_true] at hk0
            rw [show remove_mark_location_after_optional_backtrack tr
                  (Block.markLocation l0 :: rest)
                = Block.markLocation l0
                    :: remove_mark_location_after_optional_backtrack tr rest from by
                simp [remove_mark_location_after_optional_backtrack,
                  Block.visitAndUpdateExpressions, hk0]] at h
            rcases List.mem_cons.mp h with h1 | h1
            · have : loc = l0 := by injection h1
              subst this
              rw [hk] at hk0
              exact Bool.true_eq_false.mp hk0
            · exact ih loc hk h1
      all_goals
        first
        | (rcases List.mem_cons.mp h with h1 | h1
           · exact absurd h1.symm (by simp [Block.visitAndUpdateExpressions])
           · exact ih loc hk h1)

lemma remove_mark_no_revisit_refs {tr : Loc → Option Loc}
    (hch : ∀ v o, tr v = some o → tr o.atVertex = none) :
    ∀ (blocks : List Block),
    ∀ b ∈ remove_mark_location_after_optional_backtrack tr blocks,
    ∀ l ∈ b.exprLocs, tr l.atVertex = none := by
  intro blocks
  induction blocks with
  | nil => intro b hb; simp [remove_mark_location_after_optional_backtrack] at hb
  | cons b0 rest ih =>
      intro b hb l hl
      cases b0
      case markLocation l0 =>
          by_cases hk0 : (tr l0).isSome = true
          · rw [show remove_mark_location_after_optional_backtrack tr
                  (Block.markLocation l0 :: rest)
                = remove_mark_location_after_optional_backtrack tr rest from by
                simp [remove_mark_location_after_optional_backtrack, hk0]] at hb
            exact ih b hb l hl
          · rw [Bool.not_eq_true] at hk0
            rw [show remove_mark_location_after_optional_backtrack tr
                  (Block.markLocation l0 :: rest)
                = Block.markLocation l0
                    :: remove_mark_location_after_optional_backtrack tr rest from by
                simp [remove_mark_location_after_optional_backtrack,
                  Block.visitAndUpdateExpressions, hk0]] at hb
            rcases List.mem_cons.mp hb with h1 | h1
            · subst h1; simp [Block.exprLocs] at hl
            · exact ih b h1 l hl
      case filter p =>
          rw [show remove_mark_location_after_optional_backtrack tr
                (Block.filter p :: rest)
              = Block.filter (p.visitAndUpdate (make_location_rewriter_visitor_fn tr))
                  :: remove_mark_location_after_optional_backtrack tr rest from by
              simp [remove_mark_location_after_optional_backtrack,
                Block.visitAndUpdateExpressions]] at hb
          rcases List.mem_cons.mp hb with h1 | h1
          · subst h1
            simp only [Block.exprLocs] at hl
            exact rewritten_expr_locs_not_key hch p l hl
          · exact ih b h1 l hl
      all_goals
        (rcases List.mem_cons.mp hb with h1 | h1
         · subst h1; simp [Block.exprLocs, Block.visitAndUpdateExpressions] at hl
         · exact ih b h1 l hl)

/-- C7: after pass 4.3, no `MarkLocation` block for a key of the revisit
translation map remains, and no expression anywhere in the output refers to
a key of the translation map (every reference was rewritten to its origin).
The hypothesis `hch` states that origins are themselves origins, not
revisit locations — true of the revisit→origin map the metadata supplies. -/
theorem claim_C7_no_dangling_revisit_references (tr : Loc → Option Loc)
    (hch : ∀ v o, tr v = some o → tr o.atVertex = none) (blocks : List Block) :
    (∀ loc : Loc, (tr loc).isSome = true →
      Block.markLocation loc ∉ remove_mark_location_after_optional_backtrack tr blocks) ∧
    (∀ b ∈ remove_mark_location_after_optional_backtrack tr blocks,
      ∀ l ∈ b.exprLocs, tr l.atVertex = none) :=
  ⟨remove_mark_no_revisit_marks tr blocks, remove_mark_no_revisit_refs hch blocks⟩

/-- Witness for C7: location 1 is a revisit of location 0; the revisit
`MarkLocation` is dropped and the filter reference is rewritten. -/
theorem claim_C7_witness :
    Block.markLocation locB ∉
      remove_mark_location_after_optional_backtrack
        (fun l => if l.locId = 1 then some locA else none)
        [Block.markLocation locA, Block.markLocation locB,
          Block.filter (Expression.contextField (locB.navigate_to_field "x") none)] :=
  (claim_C7_no_dangling_revisit_references
    (fun l => if l.locId = 1 then some locA else none)
    (by
      intro v o h
      by_cases h1 : v.locId = 1
      · simp [h1] at h
        subst h
        rfl
      · simp [h1] at h)
    [Block.markLocation locA, Block.markLocation locB,
      Block.filter (Expression.contextField (locB.navigate_to_field "x") none)]).1
    locB (by decide)

/-! ## Pass 4.4: local-field resolution -/

lemma visitor_kills_localField (loc : Loc) :
    ∀ (e : Expression),
    (e.visitAndUpdate (visitor_func_base loc)).hasLocalField = false := by
  intro e
  induction e with
  | binaryComposition op a b iha ihb =>
      simp only [Expression.visitAndUpdate, visitor_func_base,
        Expression.hasLocalField, iha, ihb, Bool.or_self]
  | localField n ty =>
      by_cases hf : loc.isFold = true
      · simp [Expression.visitAndUpdate, visitor_func_base, hf, Expression.hasLocalField]
      · rw [Bool.not_eq_true] at hf
        simp [Expression.visitAndUpdate, visitor_func_base, hf, Expression.hasLocalField]
  | contextField l0 ty => rfl
  | foldedContextField l0 ty => rfl
  | literal v => rfl
  | queryVariable n ty => rfl

lemma rewritten_block_no_localField (loc : Loc) (b : Block) :
    (b.visitAndUpdateExpressions (visitor_func_base loc)).hasLocalField = false := by
  cases b <;>
    simp [Block.visitAndUpdateExpressions, Block.hasLocalField, visitor_kills_localField]

lemma replaceGo_no_localField :
    ∀ (blocks buffer : List Block),
    noLocalFieldDangling blocks = true →
    (∀ b ∈ buffer, b.hasLocalField = true → blocks.any Block.isMarkLocation = true) →
    (replaceLocalFieldsGo buffer blocks).any Block.hasLocalField = false := by
  intro blocks
  induction blocks with
  | nil =>
      intro buffer _ hbuf
      simp only [replaceLocalFieldsGo, List.any_eq_false]
      intro x hx
      rw [Bool.not_eq_true]
      cases hlf : x.hasLocalField with
      | false => rfl
      | true => exact absurd (hbuf x hx hlf) (by simp)
  | cons b rest ih =>
      intro buffer hnld hbuf
      have hnld1 : (!b.hasLocalField || rest.any Block.isMarkLocation) = true := by
        simp only [noLocalFieldDangling, Bool.and_eq_true] at hnld
        exact hnld.1
      have hnld2 : noLocalFieldDangling rest = true := by
        simp only [noLocalFieldDangling, Bool.and_eq_true] at hnld
        exact hnld.2
      cases b
      case markLocation loc =>
          rw [show replaceLocalFieldsGo buffer (Block.markLocation loc :: rest)
              = buffer.map (fun blk =>
                    blk.visitAndUpdateExpressions (visitor_func_base loc))
                ++ Block.markLocation loc :: replaceLocalFieldsGo [] rest from rfl]
          rw [List.any_append]
          have h1 : (buffer.map (fun blk =>
              blk.visitAndUpdateExpressions (visitor_func_base loc))).any
                Block.hasLocalField = false := by
            rw [List.any_eq_false]
            intro x hx
            rw [List.mem_map] at hx
            obtain ⟨y, _, rfl⟩ := hx
            simp [rewritten_block_no_localField]
          rw [h1]
          have h2 : (replaceLocalFieldsGo [] rest).any Block.hasLocalField = false :=
            ih [] hnld2 (by simp)
          simp [Block.hasLocalField, h2]
      all_goals
        simp only [replaceLocalFieldsGo]
        refine ih _ hnld2 ?_
        intro x hx hlf
        rcases List.mem_append.mp hx with h1 | h1
        · have h2 := hbuf x h1 hlf
          simpa [Block.isMarkLocation] using h2
        · rw [List.mem_singleton] at h1
          subst h1
          rw [hlf] at hnld1
          simpa using hnld1

/-- C6 counterexample: the input `[MarkLocation(A), Filter(LocalField x)]`
contains a `MarkLocation`, yet the output of pass 4.4 still contains a
`LocalField` expression — the trailing filter is emitted unrewritten. -/
theorem claim_C6_counterexample :
    ([Block.markLocation locA, Block.filter lfX].any Block.isMarkLocation = true) ∧
    replace_local_fields_with_context_fields [Block.markLocation locA, Block.filter lfX]
      = Except.ok [Block.markLocation locA, Block.filter lfX] ∧
    ([Block.markLocation locA, Block.filter lfX].any Block.hasLocalField = true) :=
  ⟨rfl, rfl, rfl⟩

/-- C6 amended: if every block containing a `LocalField` expression is
followed by a later `MarkLocation` block (`noLocalFieldDangling`), then the
output of pass 4.4 contains no `LocalField` expression in any block. -/
theorem claim_C6_no_unresolved_local_fields (blocks out : List Block)
    (hnld : noLocalFieldDangling blocks = true)
    (h : replace_local_fields_with_context_fields blocks = Except.ok out) :
    out.any Block.hasLocalField = false := by
  have h1 : out = replaceLocalFieldsGo [] blocks := by
    unfold replace_local_fields_with_context_fields at h
    by_cases hlen : blocks.length = (replaceLocalFieldsGo [] blocks).length
    · rw [if_pos hlen] at h
      injection h
      subst_vars
      rfl
    · rw [if_neg hlen] at h
      exact absurd h (by simp)
  subst h1
  exact replaceGo_no_localField blocks [] hnld (by simp)

/-- Witness for C6 amended on a concrete input with a trailing MarkLocation. -/
theorem claim_C6_amended_witness :
    (replaceLocalFieldsGo [] [Block.filter lfX, Block.markLocation locA]).any
      Block.hasLocalField = false :=
  claim_C6_no_unresolved_local_fields
    [Block.filter lfX, Block.markLocation locA] _ (by decide) (by rfl)

lemma visitAndUpdate_fixed_of_no_localField (loc : Loc) :
    ∀ (e : Expression), e.hasLocalField = false →
    e.visitAndUpdate (visitor_func_base loc) = e := by
  intro e
  induction e with
  | binaryComposition op a b iha ihb =>
      intro h
      simp only [Expression.hasLocalField, Bool.or_eq_false_iff] at h
      simp only [Expression.visitAndUpdate, visitor_func_base, iha h.1, ihb h.2]
  | localField n ty => intro h; simp [Expression.hasLocalField] at h
  | contextField l0 ty => intro _; rfl
  | foldedContextField l0 ty => intro _; rfl
  | literal v => intro _; rfl
  | queryVariable n ty => intro _; rfl

lemma replaceGo_flush_at_mark :
    ∀ (pre buffer : List Block) (loc : Loc) (rest : List Block),
    (∀ b ∈ pre, b.isMarkLocation = false) →
    replaceLocalFieldsGo buffer (pre ++ Block.markLocation loc :: rest)
      = (buffer ++ pre).map
          (fun blk => blk.visitAndUpdateExpressions (visitor_func_base loc))
        ++ Block.markLocation loc :: replaceLocalFieldsGo [] rest := by
  intro pre
  induction pre with
  | nil => intro buffer loc rest _; simp [replaceLocalFieldsGo]
  | cons b pre ih =>
      intro buffer loc rest hpre
      have hb : b.isMarkLocation = false := hpre b (by simp)
      have hstep : replaceLocalFieldsGo buffer ((b :: pre) ++ Block.markLocation loc :: rest)
          = replaceLocalFieldsGo (buffer ++ [b]) (pre ++ Block.markLocation loc :: rest) := by
        cases b <;> simp [Block.isMarkLocation] at hb ⊢ <;> rfl
      rw [hstep, ih (buffer ++ [b]) loc rest (fun y hy => hpre y (by simp [hy]))]
      simp

/-- C8: on reaching a `MarkLocation` with location L, pass 4.4 rewrites the
blocks buffered since the previous `MarkLocation` — every
`LocalField(name)` becomes `ContextField(L.navigate_to_field(name))`, or
`FoldedContextField(...)` when L is a fold-scope location, and expressions
without `LocalField`s are unchanged — then emits the rewritten blocks in
their original order followed by the `MarkLocation` itself. -/
theorem claim_C8_mark_location_flush :
    (∀ (loc : Loc) (name : String) (ty : Option String), loc.isFold = false →
      visitor_func_base loc (Expression.localField name ty)
        = Expression.contextField (loc.navigate_to_field name) ty) ∧
    (∀ (loc : Loc) (name : String) (ty : Option String), loc.isFold = true →
      visitor_func_base loc (Expression.localField name ty)
        = Expression.foldedContextField (loc.navigate_to_field name) ty) ∧
    (∀ (loc : Loc) (e : Expression), e.hasLocalField = false →
      e.visitAndUpdate (visitor_func_base loc) = e) ∧
    (∀ (pre : List Block) (loc : Loc) (rest : List Block),
      (∀ b ∈ pre, b.isMarkLocation = false) →
      replaceLocalFieldsGo [] (pre ++ Block.markLocation loc :: rest)
        = pre.map (fun blk => blk.visitAndUpdateExpressions (visitor_func_base loc))
          ++ Block.markLocation loc :: replaceLocalFieldsGo [] rest) := by
  refine ⟨?_, ?_, fun loc => visitAndUpdate_fixed_of_no_localField loc, ?_⟩
  · intro loc name ty hf
    simp [visitor_func_base, hf]
  · intro loc name ty hf
    simp [visitor_func_base, hf]
  · intro pre loc rest hpre
    have h := replaceGo_flush_at_mark pre [] loc rest hpre
    simpa using h

/-- Witness for C8 at a concrete non-fold location, fold location,
`LocalField`-free expression and buffered prefix. -/
theorem claim_C8_witness :
    visitor_func_base locA (Expression.localField "x" none)
        = Expression.contextField (locA.navigate_to_field "x") none ∧
    visitor_func_base locF (Expression.localField "x" none)
        = Expression.foldedContextField (locF.navigate_to_field "x") none ∧
    (Expression.literal "v").visitAndUpdate (visitor_func_base locA)
        = Expression.literal "v" ∧
    replaceLocalFieldsGo [] ([Block.filter lfX] ++ Block.markLocation locA :: [])
        = [Block.filter lfX].map
            (fun blk => blk.visitAndUpdateExpressions (visitor_func_base locA))
          ++ Block.markLocation locA :: replaceLocalFieldsGo [] [] :=
  ⟨claim_C8_mark_location_flush.1 locA "x" none rfl,
   claim_C8_mark_location_flush.2.1 locF "x" none rfl,
   claim_C8_mark_location_flush.2.2.1 locA (Expression.literal "v") rfl,
   claim_C8_mark_location_flush.2.2.2 [Block.filter lfX] locA [] (by decide)⟩

/-! ## Pass 4.5: optional-scope filter hoisting -/

lemma moveFiltersAux_cons_hoist {qmt : QueryMetadataTable} {flag : Bool} {b : Block}
    (h : (flag && b.isFilter) = true) (pending l : List Block) :
    moveFiltersAux qmt flag pending (b :: l)
      = moveFiltersAux qmt flag (pending ++ [b]) l := by
  simp [moveFiltersAux, h]

lemma moveFiltersAux_cons_gos {qmt : QueryMetadataTable} {flag : Bool} {b : Block}
    (h1 : (flag && b.isFilter) = false) (h2 : b.isGlobalOperationsStart = true)
    (pending l : List Block) :
    moveFiltersAux qmt flag pending (b :: l)
      = b :: pending ++ moveFiltersAux qmt (stepFlag qmt flag b) [] l := by
  simp [moveFiltersAux, h1, h2]

lemma moveFiltersAux_cons_plain {qmt : QueryMetadataTable} {flag : Bool} {b : Block}
    (h1 : (flag && b.isFilter) = false) (h2 : b.isGlobalOperationsStart = false)
    (pending l : List Block) :
    moveFiltersAux qmt flag pending (b :: l)
      = b :: moveFiltersAux qmt (stepFlag qmt flag b) pending l := by
  simp [moveFiltersAux, h1, h2]

lemma stepFlag_of_not_scope {qmt : QueryMetadataTable} {b : Block}
    (h1 : b.isTraverseB = false) (h2 : b.isBacktrackB = false) (flag : Bool) :
    stepFlag qmt flag b = flag := by
  cases b <;> simp [Block.isTraverseB, Block.isBacktrackB] at h1 h2 <;> rfl

lemma moveFiltersAux_inert (qmt : QueryMetadataTable) :
    ∀ (post pending : List Block),
    (∀ b ∈ post, b.isTraverseB = false ∧ b.isBacktrackB = false
      ∧ b.isGlobalOperationsStart = false) →
    moveFiltersAux qmt false pending post = post := by
  intro post
  induction post with
  | nil => intro pending _; rfl
  | cons b rest ih =>
      intro pending hpost
      obtain ⟨h1, h2, h3⟩ := hpost b (by simp)
      rw [moveFiltersAux_cons_plain (by simp) h3, stepFlag_of_not_scope h1 h2,
        ih pending (fun y hy => hpost y (by simp [hy]))]

lemma moveFiltersAux_no_gos (qmt : QueryMetadataTable) :
    ∀ (blocks : List Block) (flag : Bool) (pending : List Block),
    (∀ b ∈ blocks, b.isGlobalOperationsStart = false) →
    moveFiltersAux qmt flag pending blocks = scanKeep qmt flag blocks := by
  intro blocks
  induction blocks with
  | nil => intro flag pending _; rfl
  | cons b rest ih =>
      intro flag pending hgos
      by_cases hf : (flag && b.isFilter) = true
      · rw [moveFiltersAux_cons_hoist hf, ih _ _ (fun y hy => hgos y (by simp [hy]))]
        simp [scanKeep, hf]
      · rw [Bool.not_eq_true] at hf
        rw [moveFiltersAux_cons_plain hf (hgos b (by simp)),
          ih _ _ (fun y hy => hgos y (by simp [hy]))]
        simp [scanKeep, hf]

lemma scan_split_length (qmt : QueryMetadataTable) :
    ∀ (blocks : List Block) (flag : Bool),
    (scanKeep qmt flag blocks).length + (scanHoist qmt flag blocks).length
      = blocks.length := by
  intro blocks
  induction blocks with
  | nil => intro flag; rfl
  | cons b rest ih =>
      intro flag
      by_cases hf : (flag && b.isFilter) = true
      · have h1 := ih flag
        simp [scanKeep, scanHoist, hf]
        omega
      · rw [Bool.not_eq_true] at hf
        have h1 := ih (stepFlag qmt flag b)
        simp [scanKeep, scanHoist, hf]
        omega

/-- C2: the `within_optional_scope` flag is recomputed, not toggled, at
every `Backtrack`: after processing `Backtrack` to L it equals "L's
optional-scope nesting depth is greater than zero".  Consequently, the
concrete input with two nested optional scopes and one `Filter` in each
hoists both filters to the global section in their original relative order
(the inner `Backtrack`, to depth-1 location B, restores the flag to true). -/
theorem claim_C2_backtrack_recomputes_flag :
    (∀ (qmt : QueryMetadataTable) (flag : Bool) (loc : Loc) (bopt : Bool),
      stepFlag qmt flag (Block.backtrack loc bopt)
        = decide (0 < (qmt.getLocationInfo loc).optionalScopesDepth)) ∧
    move_filters_in_optional_locations_to_global_operations qmtT
        [Block.queryRoot ["R"], Block.markLocation locA,
          Block.traverse "out" "e1" true, Block.markLocation locB,
          Block.filter (Expression.contextField (locB.navigate_to_field "x") none),
          Block.traverse "out" "e2" true, Block.markLocation locC,
          Block.filter (Expression.contextField (locC.navigate_to_field "y") none),
          Block.backtrack locB false, Block.backtrack locA true,
          Block.globalOperationsStart]
      = [Block.queryRoot ["R"], Block.markLocation locA,
          Block.traverse "out" "e1" true, Block.markLocation locB,
          Block.traverse "out" "e2" true, Block.markLocation locC,
          Block.backtrack locB false, Block.backtrack locA true,
          Block.globalOperationsStart,
          Block.filter (Expression.contextField (locB.navigate_to_field "x") none),
          Block.filter (Expression.contextField (locC.navigate_to_field "y") none)] :=
  ⟨fun _ _ _ _ => rfl, by decide⟩

/-- C9: when the input contains no `GlobalOperationsStart`, pass 4.5 still
removes every `Filter` seen inside an optional scope but never emits the
hoist buffer, returning normally with those filters silently dropped
(`scanKeep` omits exactly the flag-true filters); likewise a `Filter`
inside an optional scope opened after the last `GlobalOperationsStart` is
dropped, as the concrete second conjunct shows.  The third conjunct records
that what is dropped is exactly the `scanHoist` filters. -/
theorem claim_C9_filters_silently_dropped :
    (∀ (qmt : QueryMetadataTable) (blocks : List Block),
      (∀ b ∈ blocks, b.isGlobalOperationsStart = false) →
      move_filters_in_optional_locations_to_global_operations qmt blocks
        = scanKeep qmt false blocks) ∧
    move_filters_in_optional_locations_to_global_operations qmtT
        [Block.globalOperationsStart, Block.traverse "out" "e" true, Block.filter lfX]
      = [Block.globalOperationsStart, Block.traverse "out" "e" true] ∧
    (∀ (qmt : QueryMetadataTable) (blocks : List Block) (flag : Bool),
      (scanKeep qmt flag blocks).length + (scanHoist qmt flag blocks).length
        = blocks.length) := by
  refine ⟨?_, by decide, fun qmt blocks flag => scan_split_length qmt blocks flag⟩
  intro qmt blocks hgos
  exact moveFiltersAux_no_gos qmt blocks false [] hgos

/-- Witness for C9 on a concrete input without `GlobalOperationsStart`. -/
theorem claim_C9_witness :
    move_filters_in_optional_locations_to_global_operations qmtT
        [Block.traverse "out" "e" true, Block.filter lfX, Block.backtrack locA false]
      = scanKeep qmtT false
          [Block.traverse "out" "e" true, Block.filter lfX, Block.backtrack locA false] :=
  claim_C9_filters_silently_dropped.1 qmtT
    [Block.traverse "out" "e" true, Block.filter lfX, Block.backtrack locA false]
    (by decide)

lemma plainStep_not_gos {b : Block} (h : b.isPlainStepBlock = true) :
    b.isGlobalOperationsStart = false := by
  cases b <;> first | rfl | simp [Block.isPlainStepBlock] at h

lemma stepFlag_plainStep {qmt : QueryMetadataTable} {b : Block}
    (h : b.isPlainStepBlock = true) (flag : Bool) : stepFlag qmt flag b = flag := by
  cases b <;> first | rfl | simp [Block.isPlainStepBlock] at h

lemma moveFiltersAux_flatten (qmt : QueryMetadataTable) :
    ∀ (t : TravTree) (d : Nat) (pending cont : List Block),
    t.wfB qmt d = true →
    moveFiltersAux qmt (decide (0 < d)) pending (t.flatten ++ cont)
      = t.kept d ++ moveFiltersAux qmt (decide (0 < d)) (pending ++ t.hoisted d) cont := by
  intro t
  induction t with
  | nil =>
      intro d pending cont _
      simp [TravTree.flatten, TravTree.kept, TravTree.hoisted]
  | plainStep b rest ih =>
      intro d pending cont hwf
      simp only [TravTree.wfB, Bool.and_eq_true] at hwf
      obtain ⟨hb, hrest⟩ := hwf
      simp only [TravTree.flatten, List.cons_append]
      by_cases hf : (decide (0 < d) && b.isFilter) = true
      · rw [moveFiltersAux_cons_hoist hf, ih d (pending ++ [b]) cont hrest]
        simp [TravTree.kept, TravTree.hoisted, hf]
      · rw [Bool.not_eq_true] at hf
        rw [moveFiltersAux_cons_plain hf (plainStep_not_gos hb),
          stepFlag_plainStep hb, ih d pending cont hrest]
        simp [TravTree.kept, TravTree.hoisted, hf]
  | scope dir e opt body loc bopt rest ihb ihr =>
      intro d pending cont hwf
      simp only [TravTree.wfB, Bool.and_eq_true] at hwf
      obtain ⟨⟨hbody, hloc⟩, hrest⟩ := hwf
      have hloc' : (qmt.getLocationInfo loc).optionalScopesDepth = d := by
        simpa using hloc
      simp only [TravTree.flatten, List.cons_append, List.append_assoc]
      rw [moveFiltersAux_cons_plain (by simp [Block.isFilter])
        (show (Block.traverse dir e opt).isGlobalOperationsStart = false from rfl)]
      have hflag : stepFlag qmt (decide (0 < d)) (Block.traverse dir e opt)
          = decide (0 < if opt then d + 1 else d) := by
        cases opt <;> simp [stepFlag]
      rw [hflag]
      rw [ihb (if opt then d + 1 else d) pending
        (Block.backtrack loc bopt :: (rest.flatten ++ cont)) hbody]
      rw [moveFiltersAux_cons_plain (by simp [Block.isFilter])
        (show (Block.backtrack loc bopt).isGlobalOperationsStart = false from rfl)]
      have hflag2 : stepFlag qmt (decide (0 < if opt then d + 1 else d))
          (Block.backtrack loc bopt) = decide (0 < d) := by
        simp [stepFlag, hloc']
      rw [hflag2]
      rw [ihr d (pending ++ body.hoisted (if opt then d + 1 else d)) cont hrest]
      simp [TravTree.kept, TravTree.hoisted, List.append_assoc]

/-- C1: for an input satisfying the structural invariants — a well-formed
traversal section (`TravTree.wfB`), exactly one `GlobalOperationsStart`,
and a global section with no scope delimiters — pass 4.5 keeps every block
outside optional scopes (in particular every `Filter` at optional depth
zero) in its original position (`TravTree.kept`), and emits every `Filter`
lying between an optional-entering `Traverse` and its matching `Backtrack`
(optional depth at least one) strictly after the `GlobalOperationsStart`
block, in the original relative order (`TravTree.hoisted`). -/
theorem claim_C1_hoist_correctness (qmt : QueryMetadataTable) (t : TravTree)
    (post : List Block) (hwf : t.wfB qmt 0 = true)
    (hpost : ∀ b ∈ post, b.isTraverseB = false ∧ b.isBacktrackB = false
      ∧ b.isGlobalOperationsStart = false) :
    move_filters_in_optional_locations_to_global_operations qmt
        (t.flatten ++ Block.globalOperationsStart :: post)
      = t.kept 0 ++ Block.globalOperationsStart :: (t.hoisted 0 ++ post) := by
  unfold move_filters_in_optional_locations_to_global_operations
  have h1 := moveFiltersAux_flatten qmt t 0 [] (Block.globalOperationsStart :: post) hwf
  rw [show (decide ((0 : Nat) < 0)) = false from rfl] at h1
  rw [h1, moveFiltersAux_cons_gos
      (show (false && Block.globalOperationsStart.isFilter) = false from rfl)
      (show Block.globalOperationsStart.isGlobalOperationsStart = true from rfl),
    show stepFlag qmt false Block.globalOperationsStart = false from rfl,
    moveFiltersAux_inert qmt post [] hpost]
  simp

/-- A concrete well-formed traversal section: one optional scope containing
a `MarkLocation` and a `Filter`. -/
def tW : TravTree :=
  .scope "out" "e" true
    (.plainStep (Block.markLocation locB)
      (.plainStep (Block.filter (Expression.contextField (locB.navigate_to_field "x") none))
        .nil))
    locA false .nil

/-- Witness for C1 on `tW` followed by `GlobalOperationsStart`. -/
theorem claim_C1_witness :
    TravTree.wfB qmtT tW 0 = true ∧
    move_filters_in_optional_locations_to_global_operations qmtT
        (tW.flatten ++ Block.globalOperationsStart :: [])
      = tW.kept 0 ++ Block.globalOperationsStart :: (tW.hoisted 0 ++ []) :=
  ⟨by decide, claim_C1_hoist_correctness qmtT tW [] (by decide) (by simp)⟩

end GraphQLCompiler
